import Mathlib

/-!
Shallow embedding of the plugin / middleware / hook runtime of
`@agions/utils` (`src/index.ts`, `createPluginSystem`, `pipe`, `compose`).

Values flowing through hooks, middlewares, options and context extensions
are drawn from an abstract type `α` (they are `any` in the source).  The
mutable `PluginContext` becomes an explicit record threaded through every
operation; `console.warn` calls become entries appended to a `warnings`
log; a thrown exception becomes a `some`-error component of the result.
JavaScript `Map`s become association lists with `Map.set` semantics
(`mapSet`), and the dynamically assigned properties of the context
(`context[name] = value`) are modelled by the `extensions` field.
-/

set_option maxRecDepth 2000

namespace Agions

/-- Middleware type from the source: `(data: T, next: (data: T) => R) => R`,
specialised to `R = T` (the terminating cast `data as unknown as R` in
`dispatch` is the identity exactly when the two types agree). -/
abbrev Middleware (α : Type) : Type := α → (α → α) → α

/-- Hook type from the source: `(...args: any[]) => any`; the variadic
argument list is modelled as a `List α`. -/
abbrev Hook (α : Type) : Type := List α → α

/-- Actions a plugin `install` function may perform on the context, deeply
embedded: extend the context, register a hook, register a middleware, or
throw.  (The spec notes installs mutate the context "typically by calling
`extend`, `hook`, or `useMiddleware`".) -/
inductive InstallAct (α : Type) where
  | extendAct (name : String) (value : α) : InstallAct α
  | hookAct (name : String) (h : Hook α) : InstallAct α
  | middlewareAct (m : Middleware α) : InstallAct α
  | throwAct (e : String) : InstallAct α

/-- Plugin from the source: `{ name, install(app, ...options) }`; `install`
receives the forwarded options and yields the actions it performs. -/
structure Plugin (α : Type) where
  name : String
  install : List α → List (InstallAct α)

/-- One `console.warn` event emitted by the system. -/
inductive Warn where
  | dupPlugin (name : String) : Warn
  | dupApi (name : String) : Warn
deriving DecidableEq

/-- The `PluginContext` record of the source.  The fixed fields mirror the
declared ones; `extensions` models the dynamically assigned properties
written by `extend` (`context[name] = value`). -/
structure PluginContext (α : Type) where
  plugins : List (String × Plugin α)
  middlewares : List (Middleware α)
  hooks : List (String × List (Hook α))
  options : List (String × α)
  extensions : List (String × α)

/-- A plugin-system state: the context plus the log of warnings emitted so
far (the source's `console.warn` side channel). -/
structure PluginSystem (α : Type) where
  context : PluginContext α
  warnings : List Warn

/-- JavaScript `Map.set` on an association list: overwrite in place when
the key is present, append otherwise. -/
def mapSet {β : Type} (l : List (String × β)) (k : String) (v : β) : List (String × β) :=
  if (l.lookup k).isSome then
    l.map (fun p => if p.1 = k then (k, v) else p)
  else
    l ++ [(k, v)]

/-- `createPluginSystem(options)`: fresh context with empty registries. -/
def createPluginSystem {α : Type} (options : List (String × α)) : PluginSystem α :=
  { context := { plugins := [], middlewares := [], hooks := [], options := options, extensions := [] },
    warnings := [] }

/-- `getPlugin(name)`: `context.plugins.get(name)`. -/
def getPlugin {α : Type} (s : PluginSystem α) (name : String) : Option (Plugin α) :=
  s.context.plugins.lookup name

/-- `useMiddleware(middleware)`: `context.middlewares.push(middleware)`. -/
def useMiddleware {α : Type} (s : PluginSystem α) (m : Middleware α) : PluginSystem α :=
  { s with context := { s.context with middlewares := s.context.middlewares ++ [m] } }

/-- The inner `dispatch(index, data)` of `applyMiddlewares`: if the index
has reached the snapshot length return the data, otherwise invoke
`middlewares[index](data, nextData => dispatch(index + 1, nextData))`. -/
def dispatch {α : Type} (middlewares : List (Middleware α)) (index : Nat) (data : α) : α :=
  if h : middlewares.length ≤ index then
    data
  else
    have hlt : index < middlewares.length := Nat.lt_of_not_le h
    (middlewares.get ⟨index, hlt⟩) data (fun nextData => dispatch middlewares (index + 1) nextData)
termination_by middlewares.length - index
decreasing_by simp_wf; omega

/-- `applyMiddlewares(initialData)`: run `dispatch` from index 0 over the
snapshot of `context.middlewares` taken at call start (in Lean the list
value is immutable, so the copy `[...context.middlewares]` is implicit;
the mutable-list aspect is modelled separately by `dispatchS`). -/
def applyMiddlewares {α : Type} (s : PluginSystem α) (initialData : α) : α :=
  dispatch s.context.middlewares 0 initialData

/-- `hook(name, hook)`: create an empty entry if absent, then push. -/
def hook {α : Type} (s : PluginSystem α) (name : String) (h : Hook α) : PluginSystem α :=
  let hs0 := s.context.hooks
  let hs1 := if (hs0.lookup name).isSome then hs0 else mapSet hs0 name []
  { s with context := { s.context with
      hooks := mapSet hs1 name (((hs1.lookup name).getD []) ++ [h]) } }

/-- The hooks registered under `name`: `context.hooks.get(name) || []`. -/
def hooksFor {α : Type} (s : PluginSystem α) (name : String) : List (Hook α) :=
  (s.context.hooks.lookup name).getD []

/-- `callHook(name, ...args)`: `hooks.map(hook => hook(...args))`. -/
def callHook {α : Type} (s : PluginSystem α) (name : String) (args : List α) : List α :=
  (hooksFor s name).map (fun h => h args)

/-- `callHookSerial(name, initialValue)`:
`hooks.reduce((result, hook) => hook(result), initialValue)`. -/
def callHookSerial {α : Type} (s : PluginSystem α) (name : String) (initialValue : α) : α :=
  (hooksFor s name).foldl (fun result h => h [result]) initialValue

/-- `extend(name, value)`: warn when `name` is already present, then write
`context[name] = value` unconditionally. -/
def extend {α : Type} (s : PluginSystem α) (name : String) (value : α) : PluginSystem α :=
  let warned := if (s.context.extensions.lookup name).isSome
                then s.warnings ++ [Warn.dupApi name] else s.warnings
  { warnings := warned,
    context := { s.context with extensions := mapSet s.context.extensions name value } }

/-- Run the actions of a plugin `install` body in order; a `throwAct`
aborts the run, returning the state reached so far together with the
thrown error (`some e`). -/
def runInstall {α : Type} : List (InstallAct α) → PluginSystem α → PluginSystem α × Option String
  | [], s => (s, none)
  | InstallAct.extendAct n v :: rest, s => runInstall rest (extend s n v)
  | InstallAct.hookAct n h :: rest, s => runInstall rest (hook s n h)
  | InstallAct.middlewareAct m :: rest, s => runInstall rest (useMiddleware s m)
  | InstallAct.throwAct e :: _, s => (s, some e)

/-- `use(plugin, ...options)`: warn and do nothing when the name is taken;
otherwise record the plugin first, then run its `install` (whose throw, if
any, propagates as the `some`-error component). -/
def use {α : Type} (s : PluginSystem α) (plugin : Plugin α) (options : List α) :
    PluginSystem α × Option String :=
  if (s.context.plugins.lookup plugin.name).isSome then
    ({ s with warnings := s.warnings ++ [Warn.dupPlugin plugin.name] }, none)
  else
    let s1 := { s with context := { s.context with
        plugins := mapSet s.context.plugins plugin.name plugin } }
    runInstall (plugin.install options) s1

/-- Top-level `pipe(...fns)`: identity for zero functions, the function
itself for one, otherwise `fns.reduce((a, b) => arg => b(a(arg)))`. -/
def pipe {α : Type} (fns : List (α → α)) : α → α :=
  match fns with
  | [] => fun arg => arg
  | [f] => f
  | f :: rest => rest.foldl (fun a b => fun arg => b (a arg)) f

/-- Top-level `compose(...fns)`: identity for zero functions, the function
itself for one, otherwise `fns.reduce((a, b) => arg => a(b(arg)))`. -/
def compose {α : Type} (fns : List (α → α)) : α → α :=
  match fns with
  | [] => fun arg => arg
  | [f] => f
  | f :: rest => rest.foldl (fun a b => fun arg => a (b arg)) f

/-- Register a list of middlewares in order via `useMiddleware`. -/
def regMws {α : Type} (s : PluginSystem α) (ms : List (Middleware α)) : PluginSystem α :=
  ms.foldl useMiddleware s

/-- Register a list of hooks under `name` in order via `hook`. -/
def regHooks {α : Type} (s : PluginSystem α) (name : String) (hs : List (Hook α)) : PluginSystem α :=
  hs.foldl (fun s2 h => hook s2 name h) s

/-- List-structured form of `dispatch`, recursing on the part of the
snapshot still to run; `dispatch_eq_dispatchList` ties it to the source's
index-based recursion. -/
def dispatchList {α : Type} : List (Middleware α) → α → α
  | [], d => d
  | m :: rest, d => m d (fun nextData => dispatchList rest nextData)

/-- A pass-through middleware: transforms its data with `g`, hands the
result to its continuation and returns the continuation's result. -/
def passMw {α : Type} (g : α → α) : Middleware α :=
  fun d next => next (g d)

/-- Stateful middleware programs, used to model executions during which a
middleware itself calls `useMiddleware` on the live context (the situation
the snapshot `[...context.middlewares]` in `applyMiddlewares` guards
against): transform the data and call the continuation, stop without
calling the continuation, or push a new middleware onto the live list and
then call the continuation with the data unchanged. -/
inductive SMw (α : Type) where
  | callNext (f : α → α) : SMw α
  | stop (f : α → α) : SMw α
  | register (m : SMw α) : SMw α

/-- `useMiddleware` on the live middleware list: `middlewares.push(m)`. -/
def useMiddlewareS {α : Type} (live : List (SMw α)) (m : SMw α) : List (SMw α) :=
  live ++ [m]

/-- `dispatch` over the immutable snapshot while threading the live,
mutable `context.middlewares` list; also records the trace of middlewares
actually executed.  Returns `(result, final live list, executed trace)`. -/
def dispatchS {α : Type} : List (SMw α) → α → List (SMw α) → α × List (SMw α) × List (SMw α)
  | [], d, live => (d, live, [])
  | SMw.callNext f :: rest, d, live =>
      let r := dispatchS rest (f d) live
      (r.1, r.2.1, SMw.callNext f :: r.2.2)
  | SMw.stop f :: _, d, live => (f d, live, [SMw.stop f])
  | SMw.register m :: rest, d, live =>
      let r := dispatchS rest d (useMiddlewareS live m)
      (r.1, r.2.1, SMw.register m :: r.2.2)

/-- `applyMiddlewares` in the stateful model: snapshot the live list at
call start and dispatch over the snapshot while the live list evolves. -/
def applyMiddlewaresS {α : Type} (live : List (SMw α)) (x : α) :
    α × List (SMw α) × List (SMw α) :=
  dispatchS live x live

/-- Concrete middleware: passes its data on unchanged but adds 1 to the
continuation's result. -/
def cexMw1 : Middleware Nat := fun d next => next d + 1

/-- Concrete middleware: never calls its continuation, returning 5. -/
def cexMw2 : Middleware Nat := fun _ _ => 5

/-- System with `cexMw1` then `cexMw2` registered, in that order. -/
def cexSys : PluginSystem Nat :=
  useMiddleware (useMiddleware (createPluginSystem []) cexMw1) cexMw2

/-- Concrete combiner for a twice-calling middleware example. -/
def w10comb : Nat → Nat → Nat → Nat := fun d r1 r2 => d + r1 + r2

/-- First data transform of the twice-calling middleware example. -/
def w10a : Nat → Nat := fun d => d + 1

/-- Second data transform of the twice-calling middleware example. -/
def w10b : Nat → Nat := fun d => d * 2

/-- A middleware that invokes its continuation twice, on `w10a` and `w10b`
of its data, and combines its data with both results. -/
def w10m : Middleware Nat := fun d next => w10comb d (next (w10a d)) (next (w10b d))

/-- System with `w10m` followed by one pass-through middleware. -/
def w10sys : PluginSystem Nat :=
  regMws (createPluginSystem []) [w10m, passMw (fun d => d + 10)]

/-- A concrete plugin whose `install` does nothing. -/
def wPlug : Plugin Nat := { name := "p", install := fun _ => [] }

/-- The system obtained by registering `wPlug` on a fresh system. -/
def wSysDup : PluginSystem Nat := (use (createPluginSystem []) wPlug []).1

/-- A concrete plugin whose `install` registers a hook and then throws. -/
def wThrowPlug : Plugin Nat :=
  { name := "q",
    install := fun _ =>
      [InstallAct.hookAct "h" (fun args => args.headD 0), InstallAct.throwAct "boom"] }

/-- The fresh system with `wThrowPlug` recorded but `install` not yet run. -/
def wThrowS1 : PluginSystem Nat :=
  { createPluginSystem ([] : List (String × Nat)) with
    context := { (createPluginSystem ([] : List (String × Nat))).context with
      plugins := mapSet (createPluginSystem ([] : List (String × Nat))).context.plugins
          wThrowPlug.name wThrowPlug } }

/-- The state reached when `wThrowPlug`'s install throws. -/
def wThrowS2 : PluginSystem Nat := (runInstall (wThrowPlug.install []) wThrowS1).1

/-- Helper recording the warnings part of `extend`. -/
theorem extend_warnings {α : Type} (s : PluginSystem α) (name : String) (v : α) :
    (extend s name v).warnings
      = if (s.context.extensions.lookup name).isSome
        then s.warnings ++ [Warn.dupApi name] else s.warnings := rfl

/-- Helper recording the extensions part of `extend`. -/
theorem extend_extensions {α : Type} (s : PluginSystem α) (name : String) (v : α) :
    (extend s name v).context.extensions = mapSet s.context.extensions name v := rfl

/-- Writing key `k` with JavaScript `Map.set` semantics makes a lookup of
`k` return the written value, in the overwrite branch. -/
theorem lookup_map_overwrite_same {β : Type} (l : List (String × β)) (k : String) (v : β)
    (h : (l.lookup k).isSome) :
    (l.map (fun p => if p.1 = k then (k, v) else p)).lookup k = some v := by
  induction l with
  | nil => simp at h
  | cons p rest ih =>
    obtain ⟨k1, v1⟩ := p
    by_cases hk : k1 = k
    · subst hk
      simp [List.lookup_cons]
    · have hbeq : (k == k1) = false := beq_false_of_ne (fun he => hk he.symm)
      simp only [List.lookup_cons, hbeq] at h
      simp only [List.map_cons, if_neg hk, List.lookup_cons, hbeq]
      exact ih h

/-- Overwriting key `k` leaves lookups of other keys unchanged. -/
theorem lookup_map_overwrite_ne {β : Type} (l : List (String × β)) (k : String) (v : β)
    (k2 : String) (h : k2 ≠ k) :
    (l.map (fun p => if p.1 = k then (k, v) else p)).lookup k2 = l.lookup k2 := by
  induction l with
  | nil => simp
  | cons p rest ih =>
    obtain ⟨k1, v1⟩ := p
    by_cases hk : k1 = k
    · subst hk
      have hbeq : (k2 == k1) = false := beq_false_of_ne h
      simp only [List.map_cons, if_true]
      simp only [List.lookup_cons, hbeq]
      exact ih
    · simp only [List.map_cons, if_neg hk, List.lookup_cons]
      cases hc : (k2 == k1) with
      | true => rfl
      | false => exact ih

/-- Appending a fresh binding makes a lookup of its key find it. -/
theorem lookup_append_single_same {β : Type} (l : List (String × β)) (k : String) (v : β)
    (h : l.lookup k = none) :
    (l ++ [(k, v)]).lookup k = some v := by
  induction l with
  | nil => simp [List.lookup_cons]
  | cons p rest ih =>
    obtain ⟨k1, v1⟩ := p
    cases hc : (k == k1) with
    | true => simp [List.lookup_cons, hc] at h
    | false =>
      simp only [List.lookup_cons, hc] at h
      simp only [List.cons_append, List.lookup_cons, hc]
      exact ih h

/-- Appending a binding for `k` leaves lookups of other keys unchanged. -/
theorem lookup_append_single_ne {β : Type} (l : List (String × β)) (k : String) (v : β)
    (k2 : String) (h : k2 ≠ k) :
    (l ++ [(k, v)]).lookup k2 = l.lookup k2 := by
  induction l with
  | nil => simp [List.lookup_cons, beq_false_of_ne h]
  | cons p rest ih =>
    obtain ⟨k1, v1⟩ := p
    simp only [List.cons_append, List.lookup_cons]
    cases hc : (k2 == k1) with
    | true => rfl
    | false => exact ih

/-- `Map.set` then `Map.get` of the same key yields the written value. -/
theorem lookup_mapSet_same {β : Type} (l : List (String × β)) (k : String) (v : β) :
    (mapSet l k v).lookup k = some v := by
  unfold mapSet
  by_cases h : (l.lookup k).isSome
  · rw [if_pos h]
    exact lookup_map_overwrite_same l k v h
  · rw [if_neg h]
    refine lookup_append_single_same l k v ?_
    cases hl : l.lookup k with
    | none => rfl
    | some b => exact absurd (by rw [hl]; rfl) h

/-- `Map.set` leaves `Map.get` of every other key unchanged. -/
theorem lookup_mapSet_ne {β : Type} (l : List (String × β)) (k : String) (v : β)
    (k2 : String) (h : k2 ≠ k) :
    (mapSet l k v).lookup k2 = l.lookup k2 := by
  unfold mapSet
  by_cases hs : (l.lookup k).isSome
  · rw [if_pos hs]
    exact lookup_map_overwrite_ne l k v k2 h
  · rw [if_neg hs]
    exact lookup_append_single_ne l k v k2 h

/-- Bounded form of the bridge between the source's index-based `dispatch`
and the list recursion `dispatchList` over the untreated part of the
snapshot. -/
theorem dispatch_eq_dispatchList_aux {α : Type} :
    ∀ (n : Nat) (ms : List (Middleware α)) (i : Nat), ms.length - i ≤ n →
      ∀ d, dispatch ms i d = dispatchList (ms.drop i) d := by
  intro n
  induction n with
  | zero =>
    intro ms i hle d
    have h : ms.length ≤ i := by omega
    rw [dispatch.eq_def, dif_pos h, List.drop_eq_nil_of_le h]
    rfl
  | succ n ih =>
    intro ms i hle d
    by_cases h : ms.length ≤ i
    · rw [dispatch.eq_def, dif_pos h, List.drop_eq_nil_of_le h]
      rfl
    · have hlt : i < ms.length := Nat.lt_of_not_le h
      rw [dispatch.eq_def, dif_neg h, List.drop_eq_getElem_cons hlt]
      simp only [List.get_eq_getElem, dispatchList]
      exact congrArg (ms[i] d) (funext fun nd => ih ms (i + 1) (by omega) nd)

/-- `dispatch` from index `i` runs exactly the snapshot middlewares from
position `i` on. -/
theorem dispatch_eq_dispatchList {α : Type} (ms : List (Middleware α)) (i : Nat) (d : α) :
    dispatch ms i d = dispatchList (ms.drop i) d :=
  dispatch_eq_dispatchList_aux ms.length ms i (by omega) d

/-- `applyMiddlewares` is the list recursion over the whole snapshot. -/
theorem applyMiddlewares_eq_dispatchList {α : Type} (s : PluginSystem α) (x : α) :
    applyMiddlewares s x = dispatchList s.context.middlewares x := by
  rw [applyMiddlewares, dispatch_eq_dispatchList, List.drop_zero]

/-- Registering middlewares in order appends them to the pipeline. -/
theorem regMws_middlewares {α : Type} (ms : List (Middleware α)) :
    ∀ (s : PluginSystem α),
      (regMws s ms).context.middlewares = s.context.middlewares ++ ms := by
  induction ms with
  | nil => intro s; simp [regMws]
  | cons m rest ih =>
    intro s
    have e : regMws s (m :: rest) = regMws (useMiddleware s m) rest := rfl
    rw [e, ih]
    simp [useMiddleware]

/-- A chain of middlewares that each hand their input unchanged to the
continuation and return its result computes the identity. -/
theorem dispatchList_transparent {α : Type} (ms : List (Middleware α))
    (h : ∀ m ∈ ms, ∀ d k, m d k = k d) : ∀ x, dispatchList ms x = x := by
  induction ms with
  | nil => intro x; rfl
  | cons m rest ih =>
    intro x
    show m x (fun nd => dispatchList rest nd) = x
    rw [h m (List.mem_cons_self m rest)]
    exact ih (fun m2 hm2 => h m2 (List.mem_cons_of_mem m hm2)) x

/-- Pass-through middlewares thread their transforms left to right before
the rest of the chain runs. -/
theorem dispatchList_append_pass {α : Type} (gs : List (α → α)) :
    ∀ (ms : List (Middleware α)) (x : α),
      dispatchList (gs.map passMw ++ ms) x
        = dispatchList ms (gs.foldl (fun a g => g a) x) := by
  induction gs with
  | nil => intro ms x; rfl
  | cons g rest ih => intro ms x; exact ih ms (g x)

/-- A middleware that ignores its continuation ends the chain with its own
return value. -/
theorem dispatchList_stop {α : Type} (m : Middleware α) (f : α → α)
    (post : List (Middleware α)) (x : α) (hm : ∀ d k, m d k = f d) :
    dispatchList (m :: post) x = f x :=
  hm x fun nd => dispatchList post nd

/-- Once a middleware that ignores its continuation sits in the chain, the
middlewares after it have no influence on the result. -/
theorem dispatchList_tail_irrel {α : Type} (m : Middleware α) (f : α → α)
    (hm : ∀ d k, m d k = f d) :
    ∀ (pre post post2 : List (Middleware α)) (x : α),
      dispatchList (pre ++ m :: post) x = dispatchList (pre ++ m :: post2) x := by
  intro pre
  induction pre with
  | nil =>
    intro post post2 x
    rw [List.nil_append, List.nil_append, dispatchList_stop m f post x hm,
        dispatchList_stop m f post2 x hm]
  | cons p rest ih =>
    intro post post2 x
    show p x (fun nd => dispatchList (rest ++ m :: post) nd)
        = p x (fun nd => dispatchList (rest ++ m :: post2) nd)
    congr 1
    funext nd
    exact ih post post2 nd

/-- The result and the executed trace of a snapshot execution do not
depend on the live middleware list being mutated alongside it. -/
theorem dispatchS_live_irrel {α : Type} :
    ∀ (ms : List (SMw α)) (x : α) (live live2 : List (SMw α)),
      (dispatchS ms x live).1 = (dispatchS ms x live2).1 ∧
      (dispatchS ms x live).2.2 = (dispatchS ms x live2).2.2 := by
  intro ms
  induction ms with
  | nil => intro x live live2; exact ⟨rfl, rfl⟩
  | cons m rest ih =>
    intro x live live2
    cases m with
    | callNext f =>
      refine ⟨?_, ?_⟩
      · exact (ih (f x) live live2).1
      · show SMw.callNext f :: (dispatchS rest (f x) live).2.2
            = SMw.callNext f :: (dispatchS rest (f x) live2).2.2
        rw [(ih (f x) live live2).2]
    | stop f => exact ⟨rfl, rfl⟩
    | register m2 =>
      refine ⟨?_, ?_⟩
      · exact (ih x (useMiddlewareS live m2) (useMiddlewareS live2 m2)).1
      · show SMw.register m2 :: (dispatchS rest x (useMiddlewareS live m2)).2.2
            = SMw.register m2 :: (dispatchS rest x (useMiddlewareS live2 m2)).2.2
        rw [(ih x (useMiddlewareS live m2) (useMiddlewareS live2 m2)).2]

/-- Registering a hook appends it to the hooks of that name. -/
theorem hooksFor_hook_same {α : Type} (s : PluginSystem α) (name : String) (h : Hook α) :
    hooksFor (hook s name h) name = hooksFor s name ++ [h] := by
  cases hl : s.context.hooks.lookup name with
  | some l => simp [hook, hooksFor, hl, lookup_mapSet_same]
  | none => simp [hook, hooksFor, hl, lookup_mapSet_same]

/-- Registering a list of hooks in order appends them in order. -/
theorem hooksFor_regHooks {α : Type} (hs : List (Hook α)) :
    ∀ (s : PluginSystem α) (name : String),
      hooksFor (regHooks s name hs) name = hooksFor s name ++ hs := by
  induction hs with
  | nil => intro s name; simp [regHooks]
  | cons h rest ih =>
    intro s name
    have e : regHooks s name (h :: rest) = regHooks (hook s name h) name rest := rfl
    rw [e, ih, hooksFor_hook_same]
    simp

/-- Running install actions never touches the plugin registry. -/
theorem runInstall_plugins {α : Type} (acts : List (InstallAct α)) :
    ∀ (s : PluginSystem α),
      ((runInstall acts s).1).context.plugins = s.context.plugins := by
  induction acts with
  | nil => intro s; rfl
  | cons a rest ih =>
    intro s
    cases a with
    | extendAct n v => exact ih (extend s n v)
    | hookAct n h => exact ih (hook s n h)
    | middlewareAct m => exact ih (useMiddleware s m)
    | throwAct e => rfl

/-- Applying the `pipe` reduction function pointwise is a left fold. -/
theorem foldl_comp_app {α : Type} (rest : List (α → α)) :
    ∀ (acc : α → α) (x : α),
      (rest.foldl (fun a b => fun arg => b (a arg)) acc) x
        = rest.foldl (fun y fn => fn y) (acc x) := by
  induction rest with
  | nil => intro acc x; rfl
  | cons b rest ih => intro acc x; exact ih (fun arg => b (acc arg)) x

/-- Applying the `compose` reduction function pointwise is a right fold. -/
theorem foldl_comp_app2 {α : Type} (rest : List (α → α)) :
    ∀ (acc : α → α) (x : α),
      (rest.foldl (fun a b => fun arg => a (b arg)) acc) x
        = acc (rest.foldr (fun fn r => fn r) x) := by
  induction rest with
  | nil => intro acc x; rfl
  | cons b rest ih => intro acc x; exact ih (fun arg => acc (b arg)) x

/-- `pipe` applies its functions left to right. -/
theorem pipe_foldl {α : Type} (fns : List (α → α)) (x : α) :
    pipe fns x = fns.foldl (fun acc fn => fn acc) x := by
  rcases fns with _ | ⟨f1, _ | ⟨f2, rest⟩⟩
  · rfl
  · rfl
  · exact foldl_comp_app (f2 :: rest) f1 x

/-- `compose` applies its functions right to left. -/
theorem compose_foldr {α : Type} (fns : List (α → α)) (x : α) :
    compose fns x = fns.foldr (fun fn acc => fn acc) x := by
  rcases fns with _ | ⟨f1, _ | ⟨f2, rest⟩⟩
  · rfl
  · rfl
  · exact foldl_comp_app2 (f2 :: rest) f1 x

/-- C1: for any middleware list registered in order through `useMiddleware`
on a fresh system (the empty list included), if every registered middleware
invokes its continuation exactly with its input data and returns the
continuation's result, then `applyMiddlewares` returns its input
unchanged. -/
theorem applyMiddlewares_transparent {α : Type} (options : List (String × α))
    (ms : List (Middleware α)) (x : α)
    (h : ∀ m ∈ ms, ∀ d k, m d k = k d) :
    applyMiddlewares (regMws (createPluginSystem options) ms) x = x := by
  rw [applyMiddlewares_eq_dispatchList, regMws_middlewares]
  show dispatchList ([] ++ ms) x = x
  rw [List.nil_append]
  exact dispatchList_transparent ms h x

/-- C1 witness: two transparent middlewares, input 7. -/
theorem applyMiddlewares_transparent_witness :
    applyMiddlewares (regMws (createPluginSystem ([] : List (String × Nat)))
      [fun d next => next d, fun d next => next d]) 7 = 7 :=
  applyMiddlewares_transparent [] [fun d next => next d, fun d next => next d] 7
    (by
      intro m hm d k
      simp only [List.mem_cons, List.not_mem_nil, or_false] at hm
      rcases hm with rfl | rfl
      · rfl
      · rfl)

/-- C2 counterexample: with `cexMw1` (calls its continuation with its data
unchanged but adds 1 to the continuation's result) registered before
`cexMw2` (which never calls its continuation and returns 5), the pipeline
on input 0 returns 6, not the short-circuiting middleware's own return
value 5.  So the claim as stated — for every registered list, if some
middleware never calls its continuation then `applyMiddlewares` returns
that middleware's return value — is false. -/
theorem applyMiddlewares_short_circuit_cex :
    applyMiddlewares cexSys 0 = 6 ∧ cexMw2 0 (fun d => d) = 5 ∧ (6 : Nat) ≠ 5 := by
  refine ⟨?_, rfl, by decide⟩
  rw [applyMiddlewares_eq_dispatchList]
  rfl

/-- C2 (amended): if middleware `m` never calls its continuation —
returning `f` of its data — and every middleware before it hands its
(possibly transformed) data to its continuation and returns the
continuation's result unchanged, then `applyMiddlewares` returns exactly
the value `m` returns on the data handed to it, the middlewares after `m`
never influence the result (they are never invoked), and execution order
equals registration order: the earlier transforms are applied to the data
as a left-to-right fold in registration order. -/
theorem applyMiddlewares_short_circuit {α : Type} (options : List (String × α))
    (gs : List (α → α)) (m : Middleware α) (f : α → α)
    (post : List (Middleware α)) (x : α)
    (hm : ∀ d k, m d k = f d) :
    applyMiddlewares (regMws (createPluginSystem options) (gs.map passMw ++ m :: post)) x
        = f (gs.foldl (fun a g => g a) x)
    ∧ (∀ (pre2 post2 post3 : List (Middleware α)),
        dispatchList (pre2 ++ m :: post2) x = dispatchList (pre2 ++ m :: post3) x)
    ∧ applyMiddlewares (regMws (createPluginSystem options) (gs.map passMw)) x
        = gs.foldl (fun a g => g a) x := by
  refine ⟨?_, ?_, ?_⟩
  · rw [applyMiddlewares_eq_dispatchList, regMws_middlewares]
    show dispatchList ([] ++ (gs.map passMw ++ m :: post)) x = _
    rw [List.nil_append, dispatchList_append_pass]
    exact dispatchList_stop m f post _ hm
  · intro pre2 post2 post3
    exact dispatchList_tail_irrel m f hm pre2 post2 post3 x
  · rw [applyMiddlewares_eq_dispatchList, regMws_middlewares]
    show dispatchList ([] ++ gs.map passMw) x = _
    rw [List.nil_append]
    have h2 := dispatchList_append_pass gs [] x
    rw [List.append_nil] at h2
    exact h2

/-- C2 witness: one pass-through adding 1, then a stopper doubling its
data; on input 3 the pipeline returns 2 * (3 + 1) = 8. -/
theorem applyMiddlewares_short_circuit_witness :
    applyMiddlewares (regMws (createPluginSystem ([] : List (String × Nat)))
      ([fun d => d + 1].map passMw ++ (fun d _ => d * 2) :: [])) 3 = 8 :=
  (applyMiddlewares_short_circuit [] [fun d => d + 1] (fun d _ => d * 2)
    (fun d => d * 2) [] 3 (fun _ _ => rfl)).1

/-- C3: an in-flight `applyMiddlewares` execution is governed entirely by
the snapshot taken at call start: its result and the trace of executed
middlewares are the same for every state of the live middleware list, so a
`useMiddleware` performed mid-execution (the `register` step, which is
exactly `useMiddlewareS` on the live list followed by the continuation)
cannot change which middlewares that execution runs, their order, or its
result. -/
theorem applyMiddlewaresS_snapshot {α : Type} (ms live live2 : List (SMw α))
    (m2 : SMw α) (rest : List (SMw α)) (x : α) :
    ((dispatchS ms x live).1 = (dispatchS ms x live2).1
      ∧ (dispatchS ms x live).2.2 = (dispatchS ms x live2).2.2)
    ∧ ((applyMiddlewaresS ms x).1 = (dispatchS ms x live).1
      ∧ (applyMiddlewaresS ms x).2.2 = (dispatchS ms x live).2.2)
    ∧ dispatchS (SMw.register m2 :: rest) x live
        = (let r := dispatchS rest x (useMiddlewareS live m2)
           (r.1, r.2.1, SMw.register m2 :: r.2.2)) :=
  ⟨dispatchS_live_irrel ms x live live2,
   ⟨(dispatchS_live_irrel ms x ms live).1, (dispatchS_live_irrel ms x ms live).2⟩,
   rfl⟩

/-- C4: a second `use` with an already-registered plugin name only appends
a duplicate-plugin warning and reports no error: the context — hence
`getPlugin` for every name — is untouched, and the call's result does not
depend on the new plugin's `install` or options, which are never used. -/
theorem use_duplicate {α : Type} (s : PluginSystem α) (p2 : Plugin α) (opts : List α)
    (h : (s.context.plugins.lookup p2.name).isSome = true) :
    use s p2 opts = ({ s with warnings := s.warnings ++ [Warn.dupPlugin p2.name] }, none)
    ∧ (use s p2 opts).1.context = s.context
    ∧ (∀ n, getPlugin (use s p2 opts).1 n = getPlugin s n)
    ∧ (∀ (inst2 : List α → List (InstallAct α)) (opts2 : List α),
        use s { name := p2.name, install := inst2 } opts2 = use s p2 opts) := by
  have e : use s p2 opts
      = ({ s with warnings := s.warnings ++ [Warn.dupPlugin p2.name] }, none) := by
    unfold use
    rw [if_pos h]
  refine ⟨e, ?_, ?_, ?_⟩
  · rw [e]
  · intro n
    rw [e]
    rfl
  · intro inst2 opts2
    have e2 : use s { name := p2.name, install := inst2 } opts2
        = ({ s with warnings := s.warnings ++ [Warn.dupPlugin p2.name] }, none) := by
      unfold use
      rw [if_pos h]
    rw [e2, e]

/-- C4 witness: registering the same plugin name a second time leaves
`getPlugin` unchanged. -/
theorem use_duplicate_witness :
    ((wSysDup.context.plugins.lookup wPlug.name).isSome = true)
    ∧ getPlugin (use wSysDup wPlug []).1 "p" = getPlugin wSysDup "p" :=
  ⟨rfl, (use_duplicate wSysDup wPlug [] rfl).2.2.1 "p"⟩

/-- C5: registering a fresh-named plugin whose `install` throws propagates
the error out of `use` while the plugin stays recorded in the registry —
registration happens before the `install` run. -/
theorem use_install_throws {α : Type} (s : PluginSystem α) (p : Plugin α) (opts : List α)
    (e : String) (s2 : PluginSystem α)
    (hfresh : s.context.plugins.lookup p.name = none)
    (hthrow : runInstall (p.install opts)
        { s with context := { s.context with
            plugins := mapSet s.context.plugins p.name p } } = (s2, some e)) :
    use s p opts = (s2, some e)
    ∧ getPlugin s2 p.name = some p := by
  have hns : ¬ ((s.context.plugins.lookup p.name).isSome = true) := by
    rw [hfresh]
    simp
  constructor
  · unfold use
    rw [if_neg hns]
    exact hthrow
  · have hp : s2.context.plugins = mapSet s.context.plugins p.name p := by
      have h2 := runInstall_plugins (p.install opts)
          { s with context := { s.context with
              plugins := mapSet s.context.plugins p.name p } }
      rw [hthrow] at h2
      exact h2
    unfold getPlugin
    rw [hp]
    exact lookup_mapSet_same s.context.plugins p.name p

/-- C5 witness: a plugin registering a hook and then throwing "boom" stays
registered in the resulting state. -/
theorem use_install_throws_witness :
    ((createPluginSystem ([] : List (String × Nat))).context.plugins.lookup
        wThrowPlug.name = none)
    ∧ runInstall (wThrowPlug.install []) wThrowS1 = (wThrowS2, some "boom")
    ∧ getPlugin wThrowS2 wThrowPlug.name = some wThrowPlug :=
  ⟨rfl, rfl,
   (use_install_throws (createPluginSystem []) wThrowPlug [] "boom" wThrowS2 rfl rfl).2⟩

/-- C6: hooks registered under a name in order are reduced serially by
`callHookSerial`: the first hook receives the initial value, each later
hook receives the preceding hook's return value, and the last hook's value
is the result; with no hooks registered the initial value is returned
unchanged. -/
theorem callHookSerial_foldl {α : Type} (options : List (String × α)) (name : String)
    (hs : List (Hook α)) (v : α) :
    callHookSerial (regHooks (createPluginSystem options) name hs) name v
        = hs.foldl (fun result h => h [result]) v
    ∧ callHookSerial (createPluginSystem options) name v = v := by
  constructor
  · unfold callHookSerial
    rw [hooksFor_regHooks]
    show ((([] : List (Hook α)) ++ hs).foldl (fun result h => h [result]) v) = _
    rw [List.nil_append]
  · rfl

/-- C7: `callHook` invokes every hook registered under the name, in
registration order, each on the identical argument list, and returns the
list of their results in that order; with no hooks registered it returns
the empty list. -/
theorem callHook_map {α : Type} (options : List (String × α)) (name : String)
    (hs : List (Hook α)) (args : List α) :
    callHook (regHooks (createPluginSystem options) name hs) name args
        = hs.map (fun h => h args)
    ∧ callHook (createPluginSystem options) name args = [] := by
  constructor
  · unfold callHook
    rw [hooksFor_regHooks]
    show ((([] : List (Hook α)) ++ hs).map (fun h => h args)) = _
    rw [List.nil_append]
  · rfl

/-- C8: `extend` always writes `context[name] = value` and never fails — on
a repeated name it additionally appends a duplicate-API warning and the
second write wins — while every other extension entry and every other
context field is left unchanged. -/
theorem extend_overwrites {α : Type} (s : PluginSystem α) (name : String) (v v2 : α)
    (n : String) (hn : n ≠ name) :
    ((extend s name v).context.extensions.lookup name = some v)
    ∧ ((extend (extend s name v) name v2).context.extensions.lookup name = some v2)
    ∧ ((extend (extend s name v) name v2).warnings
        = (extend s name v).warnings ++ [Warn.dupApi name])
    ∧ ((extend s name v).context.extensions.lookup n = s.context.extensions.lookup n)
    ∧ (extend s name v).context.plugins = s.context.plugins
    ∧ (extend s name v).context.middlewares = s.context.middlewares
    ∧ (extend s name v).context.hooks = s.context.hooks
    ∧ (extend s name v).context.options = s.context.options := by
  refine ⟨?_, ?_, ?_, ?_, rfl, rfl, rfl, rfl⟩
  · rw [extend_extensions]
    exact lookup_mapSet_same s.context.extensions name v
  · rw [extend_extensions, extend_extensions]
    exact lookup_mapSet_same (mapSet s.context.extensions name v) name v2
  · rw [extend_warnings (extend s name v), extend_extensions, lookup_mapSet_same]
    rfl
  · rw [extend_extensions]
    exact lookup_mapSet_ne s.context.extensions name v n hn

/-- C8 witness: extend x to 1 then to 2; the read yields 2. -/
theorem extend_overwrites_witness :
    (("y" : String) ≠ "x")
    ∧ (extend (extend (createPluginSystem ([] : List (String × Nat))) "x" 1)
        "x" 2).context.extensions.lookup "x" = some 2 :=
  ⟨by decide,
   (extend_overwrites (createPluginSystem []) "x" 1 2 "y" (by decide)).2.1⟩

/-- C9: `pipe` applies its functions left to right and `compose` right to
left; for both, zero functions give the identity and a single function is
returned itself, unwrapped. -/
theorem pipe_compose_spec {α : Type} (f g : α → α) (x : α) (fns : List (α → α)) :
    pipe [f, g] x = g (f x)
    ∧ compose [f, g] x = f (g x)
    ∧ pipe fns x = fns.foldl (fun acc fn => fn acc) x
    ∧ compose fns x = fns.foldr (fun fn acc => fn acc) x
    ∧ pipe ([] : List (α → α)) x = x
    ∧ compose ([] : List (α → α)) x = x
    ∧ pipe [f] = f
    ∧ compose [f] = f :=
  ⟨rfl, rfl, pipe_foldl fns x, compose_foldr fns x, rfl, rfl, rfl, rfl⟩

/-- C10: the continuation handed to the middleware at index `i` of the
snapshot may be invoked several times; each invocation with data `d`
independently runs the remaining middlewares from index `i + 1` starting
at `d`, so a middleware calling its continuation twice runs the rest of
the chain twice and observes both results. -/
theorem dispatch_next_reinvocable {α : Type} (s : PluginSystem α) (i : Nat)
    (m : Middleware α) (comb : α → α → α → α) (a b : α → α) (x : α)
    (hi : s.context.middlewares[i]? = some m)
    (hm : ∀ d k, m d k = comb d (k (a d)) (k (b d))) :
    dispatch s.context.middlewares i x
        = comb x (dispatch s.context.middlewares (i + 1) (a x))
                 (dispatch s.context.middlewares (i + 1) (b x))
    ∧ applyMiddlewares s x = dispatch s.context.middlewares 0 x := by
  refine ⟨?_, rfl⟩
  obtain ⟨hlt, hget⟩ := List.getElem?_eq_some_iff.mp hi
  rw [dispatch_eq_dispatchList, List.drop_eq_getElem_cons hlt, hget]
  show m x (fun nd => dispatchList (s.context.middlewares.drop (i + 1)) nd) = _
  rw [hm]
  rw [dispatch_eq_dispatchList s.context.middlewares (i + 1) (a x),
      dispatch_eq_dispatchList s.context.middlewares (i + 1) (b x)]

/-- C10 witness: `w10m` calls its continuation on 3 and on 4 and combines
both results with its input 2. -/
theorem dispatch_next_reinvocable_witness :
    (w10sys.context.middlewares[0]? = some w10m)
    ∧ dispatch w10sys.context.middlewares 0 2
        = w10comb 2 (dispatch w10sys.context.middlewares 1 (w10a 2))
                    (dispatch w10sys.context.middlewares 1 (w10b 2)) :=
  ⟨rfl,
   (dispatch_next_reinvocable w10sys 0 w10m w10comb w10a w10b 2 rfl
     (fun _ _ => rfl)).1⟩

end Agions
